import Mathlib

/-!
Verification of the synchronization engine of the GitHub–Discord sync service.

The model is a shallow embedding of the TypeScript sources.  The current
implementation is the split codebase (the index file together with the
discord/github modules); the legacy single-file implementation is modelled
separately where a claim cites it (the image transform of
convertAttachmentsToMarkdown).  Strings are modelled as Lean strings
(sequences of Unicode scalar values); JavaScript string operations
(includes, substring, replace with the concrete regular expressions of the
source) are translated into executable scanners over the character list.
All definitions are computable so that witnesses evaluate by decide.
-/

/-- JS-style test that the second list starts with the first one
(used to model literal matches of the source's regular expressions). -/
def begins : List Char → List Char → Bool
  | [], _ => true
  | _ :: _, [] => false
  | p :: ps, c :: cs => p == c && begins ps cs

/-- Substring containment on character lists: needle, then haystack.
Models JS String.prototype.includes. -/
def containsL (needle : List Char) : List Char → Bool
  | [] => needle.isEmpty
  | c :: rest => begins needle (c :: rest) || containsL needle rest

/-- JS hay.includes(needle). -/
def strContains (hay needle : String) : Bool := containsL needle.data hay.data

/-- ASCII lower-casing of a character, used to model the i flag of the
source's regular expressions (the flagged literals are all ASCII). -/
def lowerAscii (c : Char) : Char :=
  if c = 'A' then 'a' else if c = 'B' then 'b' else if c = 'C' then 'c'
  else if c = 'D' then 'd' else if c = 'E' then 'e' else if c = 'F' then 'f'
  else if c = 'G' then 'g' else if c = 'H' then 'h' else if c = 'I' then 'i'
  else if c = 'J' then 'j' else if c = 'K' then 'k' else if c = 'L' then 'l'
  else if c = 'M' then 'm' else if c = 'N' then 'n' else if c = 'O' then 'o'
  else if c = 'P' then 'p' else if c = 'Q' then 'q' else if c = 'R' then 'r'
  else if c = 'S' then 's' else if c = 'T' then 't' else if c = 'U' then 'u'
  else if c = 'V' then 'v' else if c = 'W' then 'w' else if c = 'X' then 'x'
  else if c = 'Y' then 'y' else if c = 'Z' then 'z' else c

/-- Case-insensitive character comparison (regex i flag). -/
def eqCI (a b : Char) : Bool := lowerAscii a == lowerAscii b

/-- Case-insensitive version of begins. -/
def beginsCI : List Char → List Char → Bool
  | [], _ => true
  | _ :: _, [] => false
  | p :: ps, c :: cs => eqCI p c && beginsCI ps cs

/-- JS s.substring(0, n) after the source has clamped n to a Nat
(JS clamps a negative end index to 0; the caller passes Int.toNat). -/
def jsSubstring (s : String) (n : Nat) : String := ⟨s.data.take n⟩

/-! ## Data model (src: the unified message/discussion/thread records) -/

/-- A GitHub discussion as used by the sync core (github.ts GithubDiscussion,
with the author flattened to its login as the core does). -/
structure GithubDiscussion where
  id : String
  number : Nat
  title : String
  body : String
  author : String
deriving DecidableEq, Repr

/-- A GitHub discussion comment (github.ts GithubComment, flattened). -/
structure GithubComment where
  id : String
  body : String
  author : String
deriving DecidableEq, Repr

/-- A Discord forum thread (the fields of ThreadChannel the core reads). -/
structure DiscordThread where
  id : String
  name : String
  guildId : String
  parentId : String
deriving DecidableEq, Repr

/-- A raw Discord message (the fields of Message the core reads). -/
structure DiscordMessage where
  id : String
  content : String
  author : String
  bot : Bool
deriving DecidableEq, Repr

/-- The unified thread-message view (discord.ts ThreadMessage). -/
structure ThreadMessage where
  id : String
  message : String
  user : String
  isAuthor : Bool
  fromGithub : Bool
deriving DecidableEq, Repr

/-! ## MessageTransformer, GitHub → Discord direction
(discord.ts makeDiscordMessage of the current implementation) -/

/-- A character the regex class of non-space non-parenthesis URL characters
accepts: anything but JS whitespace and the closing parenthesis. -/
def urlOk (c : Char) : Bool :=
  !(c == ' ' || c == '\t' || c == '\n' || c == '\r' || c == '\x0b' ||
    c == '\x0c' || c == ')')

/-- After an http(s) protocol: the greedy URL character run, which must be
non-empty and followed by a closing parenthesis.  Returns the full URL and
the rest of the input after the parenthesis. -/
def parseUrlRun (pfx rest : List Char) : Option (List Char × List Char) :=
  let run := rest.takeWhile urlOk
  if run.isEmpty then none
  else
    match rest.drop run.length with
    | ')' :: r => some (pfx ++ run, r)
    | _ => none

/-- The URL part of the markdown-image regex: https?:// then the greedy
URL-character run, then the closing parenthesis. -/
def parseUrl (cs : List Char) : Option (List Char × List Char) :=
  if begins "https://".data cs then parseUrlRun (cs.take 8) (cs.drop 8)
  else if begins "http://".data cs then parseUrlRun (cs.take 7) (cs.drop 7)
  else none

/-- The lazy alt-text scan of the markdown-image regex: the shortest prefix
(of non-newline characters) followed by a bracket-parenthesis pair and a
valid URL.  On a failing URL parse the regex engine extends the alt text
past the pair, which this scan mirrors. -/
def scanAlt : List Char → Option (List Char × List Char)
  | [] => none
  | c :: rest =>
    if c = '\n' then none
    else
      match c, rest with
      | ']', '(' :: rest2 =>
        (match parseUrl rest2 with
         | some (url, r) => some (url, r)
         | none => scanAlt rest)
      | _, _ => scanAlt rest

/-- The global markdown-image replacement of makeDiscordMessage: every
image of the shape bang-bracket alt bracket-paren url paren is replaced by
the bare url, in place.  Fuel-indexed for structural recursion; one unit of
fuel consumes at least one input character, so a fuel of the input length
is always enough. -/
def rmImagesF : Nat → List Char → List Char
  | 0, cs => cs
  | _ + 1, [] => []
  | f + 1, c :: rest =>
    if c = '!' then
      match rest with
      | '[' :: rest2 =>
        (match scanAlt rest2 with
         | some (url, rest3) => url ++ rmImagesF f rest3
         | none => c :: rmImagesF f rest)
      | _ => c :: rmImagesF f rest
    else c :: rmImagesF f rest

/-- The markdown-image replacement at adequate fuel. -/
def rmImages (cs : List Char) : List Char := rmImagesF cs.length cs

/-- The body processing of the current makeDiscordMessage: only the
markdown-image replacement (the call to processGitHubAttachments was
dropped in the current implementation). -/
def processBody (body : String) : String := ⟨rmImages body.data⟩

/-- The attribution header of a Discord-bound message
(discord.ts makeDiscordMessage messagePrefix). -/
def msgHeader (owner repo author : String) (number : Nat) : String :=
  "💬 **" ++ author ++ "** on [GitHub](<https://github.com/" ++ owner ++
    "/" ++ repo ++ "/discussions/" ++ toString number ++ ">) wrote:\n"

/-- The continuation marker appended on truncation. -/
def continuedMarker : String := "\n(continued...)"

/-- discord.ts makeDiscordMessage: header, markdown-image rewrite of the
body, and length clamping of the body against 1900 minus the header length
(a JS number, so possibly negative: modelled as Int, with JS substring
clamping a negative end index to zero). -/
def makeDiscordMessage (owner repo author : String) (number : Nat) (body : String) : String :=
  let header := msgHeader owner repo author number
  let maxContentLength : Int := 1900 - (header.length : Int)
  let processedBody := processBody body
  header ++
    (if maxContentLength < (processedBody.length : Int) then
      jsSubstring processedBody maxContentLength.toNat ++ continuedMarker
    else processedBody)

/-! ## MessageTransformer, Discord → GitHub direction
(github.ts makeGithubComment of the current implementation) -/

/-- The attribution header of a GitHub-bound comment. -/
def githubHeader (author url : String) : String :=
  "💬 **" ++ author ++ "** on [Discord](" ++ url ++ ") wrote:\n\n"

/-- github.ts makeGithubComment: in the current implementation the content
is passed through unchanged (processedContent = message). -/
def makeGithubComment (message author url : String) : String :=
  githubHeader author url ++ message

/-- The deep link to a Discord message used in the GitHub header. -/
def discordMessageUrl (guildId threadId messageId : String) : String :=
  "https://discord.com/channels/" ++ guildId ++ "/" ++ threadId ++ "/" ++ messageId

/-! ## EntityLinker (findThreadOnGitHub / findDiscussionOnDiscord) -/

/-- The link marker embedded in a discussion body for a Discord thread id. -/
def discordMarker (threadId : String) : String :=
  "<!-- Discord:" ++ threadId ++ " -->"

/-- The literal head of the link-marker regex. -/
def markerLit : List Char := "<!-- Discord:".data

/-- The literal tail of the link-marker regex. -/
def markerEnd : List Char := " -->".data

/-- One attempt of the link-marker regex at the current position: the
literal head, a non-empty greedy digit run, then the literal tail. -/
def tryMarkerAt (cs : List Char) : Option (List Char) :=
  if begins markerLit cs then
    let after := cs.drop markerLit.length
    let ds := after.takeWhile Char.isDigit
    if ds.isEmpty then none
    else if begins markerEnd (after.drop ds.length) then some ds
    else none
  else none

/-- First match of the link-marker regex (regex.exec): the earliest
position where the marker pattern matches, returning the captured digits. -/
def extractDiscordMarker : List Char → Option (List Char)
  | [] => none
  | c :: rest =>
    match tryMarkerAt (c :: rest) with
    | some ds => some ds
    | none => extractDiscordMarker rest

/-- index.ts findDiscussionOnDiscord: extract the marker id from the
discussion body (regex exec, first capture) and scan the fetched threads
for one with that id.  A missing or malformed marker yields no id, so no
thread compares equal. -/
def findDiscussionOnDiscord (threads : List DiscordThread) (discussion : GithubDiscussion) :
    Option DiscordThread :=
  let idOpt := (extractDiscordMarker discussion.body.data).map (fun ds => String.mk ds)
  threads.find? (fun t => idOpt == some t.id)

/-! ## Discussion listing cache and GitHub-side operations (github.ts) -/

/-- The github-side state: the remote set of discussions in the configured
category, and the process-lifetime module-level cache. -/
structure GState where
  remote : List GithubDiscussion
  cache : Option (List GithubDiscussion)
deriving DecidableEq, Repr

/-- github.ts listGithubDiscussions: return the cache when populated;
otherwise fetch the remote listing, store it in the cache and return it. -/
def listGithubDiscussions (s : GState) : List GithubDiscussion × GState :=
  match s.cache with
  | some c => (c, s)
  | none => (s.remote, { s with cache := some s.remote })

/-- The body of a discussion created from a Discord thread: the seed
message content with the link marker appended, wrapped in the attribution
header — the marker is part of the single creation call. -/
def createdDiscussionBody (thread : DiscordThread) (m : DiscordMessage) : String :=
  makeGithubComment (m.content ++ "\n\n" ++ discordMarker thread.id) m.author
    (discordMessageUrl thread.guildId thread.id m.id)

/-- The discussion record produced by github.ts createDiscussion (id and
number are allocated by the collaborator; the author is the account behind
the token). -/
def createdDiscussion (newId : String) (newNumber : Nat) (login : String)
    (thread : DiscordThread) (m : DiscordMessage) : GithubDiscussion :=
  { id := newId, number := newNumber, title := thread.name,
    body := createdDiscussionBody thread m, author := login }

/-- github.ts createDiscussion as a state transformer: the new discussion
is appended to the remote listing; the cache is not touched. -/
def createDiscussionSt (newId : String) (newNumber : Nat) (login : String)
    (thread : DiscordThread) (m : DiscordMessage) (s : GState) :
    GithubDiscussion × GState :=
  let d := createdDiscussion newId newNumber login thread m
  (d, { s with remote := s.remote ++ [d] })

/-- index.ts findThreadOnGitHub: list the discussions (through the cache)
and take the first whose body contains the exact link marker for the
thread id. -/
def findThreadOnGitHub (thread : DiscordThread) (s : GState) :
    Option GithubDiscussion × GState :=
  let (ds, s2) := listGithubDiscussions s
  (ds.find? (fun it => strContains it.body (discordMarker thread.id)), s2)

/-- The linking part of index.ts syncThreadOnGitHub: resolve the
discussion; when absent, create it from the thread's seed message. -/
def syncThreadOnGitHubLink (newId : String) (newNumber : Nat) (login : String)
    (thread : DiscordThread) (m : DiscordMessage) (s : GState) :
    GithubDiscussion × GState :=
  let (found, s1) := findThreadOnGitHub thread s
  match found with
  | some d => (d, s1)
  | none => createDiscussionSt newId newNumber login thread m s1

/-- The github-side operations that can run after startup, for stating the
cache invariant. -/
inductive GOp where
  | create (newId : String) (newNumber : Nat) (login : String)
      (thread : DiscordThread) (m : DiscordMessage)
  | listCall
deriving DecidableEq, Repr

/-- Apply one github-side operation to the state. -/
def applyOp (s : GState) : GOp → GState
  | GOp.create i n l t m => (createDiscussionSt i n l t m s).2
  | GOp.listCall => (listGithubDiscussions s).2

/-- Apply a sequence of github-side operations. -/
def applyOps (s : GState) (ops : List GOp) : GState := ops.foldl applyOp s

/-! ## SyncOrchestrator: the message catch-up step (index.ts syncMessages) -/

/-- A mutating collaborator call issued by the catch-up step. -/
inductive Write where
  | toDiscord (c : GithubComment)
  | toGithub (m : ThreadMessage)
deriving DecidableEq, Repr

/-- The observable trace of one syncMessages invocation: whether each
message list was read, the emitted log lines, and the mutating calls. -/
structure SyncTrace where
  readDiscord : Bool
  readGithub : Bool
  logs : List String
  writes : List Write
deriving DecidableEq, Repr

/-- The log line of discord.ts pushDiscordMessage. -/
def pushDiscordLog (threadId body : String) : String :=
  "[Discord] Sending message to Discord thread " ++ threadId ++ ": " ++ body

/-- The log line of github.ts pushGithubComment. -/
def pushGithubLog (number : Nat) (message : String) : String :=
  "[Github] Sending comment to GitHub discussion " ++ toString number ++ ": " ++ message

/-- index.ts syncMessages of the current implementation: both lists are
read up front; equal lengths are a logged no-op; otherwise the side with
fewer messages receives the tail of the longer list, one push per message
in order, unless dry-run is enabled, in which case a single log line
replaces the whole push loop. -/
def syncMessages (dryRun : Bool) (thread : DiscordThread) (discussion : GithubDiscussion)
    (threadMessages : List ThreadMessage) (discussionMessages : List GithubComment) :
    SyncTrace :=
  let loading := "Loading messages from thread " ++ thread.id ++ " & discussion " ++ discussion.id
  if threadMessages.length = discussionMessages.length then
    { readDiscord := true, readGithub := true,
      logs := [loading,
        "No new messages to sync between Discord thread " ++ thread.id ++
          " & GitHub discussion " ++ discussion.id],
      writes := [] }
  else if threadMessages.length < discussionMessages.length then
    if dryRun then
      { readDiscord := true, readGithub := true,
        logs := [loading, "Syncing messages from GitHub to Discord",
          "Dry run enabled, skipping actual sync"],
        writes := [] }
    else
      { readDiscord := true, readGithub := true,
        logs := [loading, "Syncing messages from GitHub to Discord"] ++
          (discussionMessages.drop threadMessages.length).map
            (fun c => pushDiscordLog thread.id c.body),
        writes := (discussionMessages.drop threadMessages.length).map Write.toDiscord }
  else
    if dryRun then
      { readDiscord := true, readGithub := true,
        logs := [loading, "Syncing messages from Discord to GitHub",
          "Dry run enabled, skipping actual sync"],
        writes := [] }
    else
      { readDiscord := true, readGithub := true,
        logs := [loading, "Syncing messages from Discord to GitHub"] ++
          (threadMessages.drop discussionMessages.length).map
            (fun m => pushGithubLog discussion.number m.message),
        writes := (threadMessages.drop discussionMessages.length).map Write.toGithub }

/-! ## Event triggers (index.ts discord.on handlers) -/

/-- What a Discord-side trigger does with the event. -/
inductive TriggerAction where
  | skip
  | sync (threadId : String)
deriving DecidableEq, Repr

/-- The threadCreate handler as written: its body begins with an
unconditional return statement, so it performs no action for any event. -/
def threadCreateHandler (_forumChannelId : String) (_thread : DiscordThread)
    (_firstMessage : Option DiscordMessage) : TriggerAction :=
  TriggerAction.skip

/-- The code that follows the unconditional return in the threadCreate
handler (dead code, translated for comparison): filter on the parent forum
channel, require a seed message, then sync the thread on GitHub. -/
def threadCreateHandlerIntended (forumChannelId : String) (thread : DiscordThread)
    (firstMessage : Option DiscordMessage) : TriggerAction :=
  if thread.parentId ≠ forumChannelId then TriggerAction.skip
  else
    match firstMessage with
    | none => TriggerAction.skip
    | some _ => TriggerAction.sync thread.id

/-- An incoming messageCreate event, with the channel facts the handler
inspects. -/
structure IncomingMessage where
  inThread : Bool
  parentId : String
  threadId : String
  bot : Bool
  content : String
deriving DecidableEq, Repr

/-- The messageCreate handler: only messages in threads of the configured
forum channel, not authored by a bot and not containing the attribution
prefix anywhere in the content, trigger syncThreadOnGitHub. -/
def messageCreateHandler (forumChannelId : String) (m : IncomingMessage) : TriggerAction :=
  if !m.inThread then TriggerAction.skip
  else if m.parentId ≠ forumChannelId then TriggerAction.skip
  else if m.bot || strContains m.content "💬 **" then TriggerAction.skip
  else TriggerAction.sync m.threadId

/-! ## Legacy Discord → GitHub image transform
(part 001 convertAttachmentsToMarkdown, the version the spec's B→A
image-normalization contract describes) -/

/-- A character of the attachment-id class: ASCII letters, digits, dash. -/
def attChar (c : Char) : Bool := c.isAlphanum || c == '-'

/-- The GitHub user-attachments URL literal. -/
def attLit : List Char := "https://github.com/user-attachments/assets/".data

/-- The literal before an img tag's source URL. -/
def srcLit : List Char := "src=\"".data

/-- The literal before an img tag's alt text. -/
def altLit : List Char := "alt=\"".data

/-- The opening of an HTML img tag. -/
def imgTagLit : List Char := "<img".data

/-- The self-closing end of an HTML img tag. -/
def closeTagLit : List Char := "/>".data

/-- The quoted-URL tail of the img regexes: a non-empty greedy run of
non-quote characters, then the closing quote. -/
def quotedTail (pfx rest : List Char) : Option (List Char × List Char) :=
  let run := rest.takeWhile (fun c => c ≠ '"')
  if run.isEmpty then none
  else
    match rest.drop run.length with
    | '"' :: r => some (pfx ++ run, r)
    | _ => none

/-- An http(s) URL up to a closing quote (case-insensitive protocol, as in
the flagged regexes; the captured characters keep their case). -/
def parseQuotedHttpUrl (cs : List Char) : Option (List Char × List Char) :=
  if beginsCI "https://".data cs then quotedTail (cs.take 8) (cs.drop 8)
  else if beginsCI "http://".data cs then quotedTail (cs.take 7) (cs.drop 7)
  else none

/-- Lazy scan (dot matches no newline) for the self-closing tag end;
returns the rest of the input after it. -/
def findCloseTag : List Char → Option (List Char)
  | [] => none
  | c :: rest =>
    if c = '\n' then none
    else if begins closeTagLit (c :: rest) then some ((c :: rest).drop 2)
    else findCloseTag rest

/-- Lazy scan for an alt attribute followed (lazily) by the tag end; on a
failed tag-end search the engine moves to a later alt candidate. -/
def searchAlt : List Char → Option (List Char × List Char)
  | [] => none
  | c :: rest =>
    if c = '\n' then none
    else if beginsCI altLit (c :: rest) then
      (let after := (c :: rest).drop 5
       let altText := after.takeWhile (fun x => x ≠ '"')
       match after.drop altText.length with
       | '"' :: rest2 =>
         (match findCloseTag rest2 with
          | some rest3 => some (altText, rest3)
          | none => searchAlt rest)
       | _ => searchAlt rest)
    else searchAlt rest

/-- Lazy scan of the with-alt img regex after the opening literal:
src attribute with an http(s) URL, then alt attribute, then tag end; on an
inner failure the engine moves to a later src candidate. -/
def searchSrcA : List Char → Option (List Char × List Char × List Char)
  | [] => none
  | c :: rest =>
    if c = '\n' then none
    else if beginsCI srcLit (c :: rest) then
      (match parseQuotedHttpUrl ((c :: rest).drop 5) with
       | some (url, rest2) =>
         (match searchAlt rest2 with
          | some (altText, rest3) => some (url, altText, rest3)
          | none => searchSrcA rest)
       | none => searchSrcA rest)
    else searchSrcA rest

/-- Lazy scan of the no-alt img regex after the opening literal. -/
def searchSrcB : List Char → Option (List Char × List Char)
  | [] => none
  | c :: rest =>
    if c = '\n' then none
    else if beginsCI srcLit (c :: rest) then
      (match parseQuotedHttpUrl ((c :: rest).drop 5) with
       | some (url, rest2) =>
         (match findCloseTag rest2 with
          | some rest3 => some (url, rest3)
          | none => searchSrcB rest)
       | none => searchSrcB rest)
    else searchSrcB rest

/-- First replacement pass of convertAttachmentsToMarkdown: img tags whose
alt attribute follows the src attribute become markdown images with that
alt text. -/
def stageAF : Nat → List Char → List Char
  | 0, cs => cs
  | _ + 1, [] => []
  | f + 1, c :: rest =>
    if beginsCI imgTagLit (c :: rest) then
      match searchSrcA ((c :: rest).drop 4) with
      | some (url, altText, rest3) =>
        ("![".data ++ altText ++ "](".data ++ url ++ [')']) ++ stageAF f rest3
      | none => c :: stageAF f rest
    else c :: stageAF f rest

/-- Second replacement pass: remaining img tags become markdown images
with the generic Image label. -/
def stageBF : Nat → List Char → List Char
  | 0, cs => cs
  | _ + 1, [] => []
  | f + 1, c :: rest =>
    if beginsCI imgTagLit (c :: rest) then
      match searchSrcB ((c :: rest).drop 4) with
      | some (url, rest3) =>
        ("![Image](".data ++ url ++ [')']) ++ stageBF f rest3
      | none => c :: stageBF f rest
    else c :: stageBF f rest

/-- The replacement callback of the attachment pass: the matched URL is
left as is when the content (the value the closure sees: the input of the
pass) already holds a markdown-image opener somewhere and the matched URL
already appears as a markdown link target; otherwise it is wrapped as a
markdown image with the GitHub Image label. -/
def wrapAttachment (orig m : String) : String :=
  if strContains orig "![" && strContains orig ("](" ++ m ++ ")") then m
  else "![GitHub Image](" ++ m ++ ")"

/-- Third replacement pass: every attachment-URL match (case-insensitive
literal, then a non-empty greedy run of id characters) is rewritten through
the callback; the matched characters keep their original case. -/
def replaceAttachmentsF (orig : String) : Nat → List Char → List Char
  | 0, cs => cs
  | _ + 1, [] => []
  | f + 1, c :: rest =>
    if beginsCI attLit (c :: rest) then
      (let after := (c :: rest).drop attLit.length
       let run := after.takeWhile attChar
       if run.isEmpty then c :: replaceAttachmentsF orig f rest
       else
         (wrapAttachment orig ⟨(c :: rest).take attLit.length ++ run⟩).data ++
           replaceAttachmentsF orig f (after.drop run.length))
    else c :: replaceAttachmentsF orig f rest

/-- Legacy convertAttachmentsToMarkdown: the two img-tag passes, then the
attachment pass, whose guard closure reads the string value the passes
produced. -/
def convertAttachmentsToMarkdown (content : String) : String :=
  let a : String := ⟨stageAF content.data.length content.data⟩
  let b : String := ⟨stageBF a.data.length a.data⟩
  ⟨replaceAttachmentsF b b.data.length b.data⟩

/-! ## Sample data for witnesses -/

/-- A sample thread in the configured forum channel. -/
def sampleThread : DiscordThread :=
  { id := "1375561398364668025", name := "Bug: crash on startup",
    guildId := "42", parentId := "1375527112521552003" }

/-- A sample discussion already linked to the sample thread. -/
def sampleDiscussion : GithubDiscussion :=
  { id := "D_1", number := 7, title := "Bug: crash on startup",
    body := "Steps to reproduce...\n\n<!-- Discord:1375561398364668025 -->",
    author := "alice" }

/-- A sample seed message. -/
def sampleSeed : DiscordMessage :=
  { id := "9001", content := "Steps to reproduce...", author := "alice", bot := false }

/-- A sample GitHub comment. -/
def sampleComment0 : GithubComment :=
  { id := "C0", body := "UNIQUEBODYZERO", author := "alice" }

/-- A second sample GitHub comment. -/
def sampleComment1 : GithubComment :=
  { id := "C1", body := "UNIQUEBODYONE", author := "bob" }

/-- A sample native message that merely quotes the attribution marker. -/
def sampleQuote : IncomingMessage :=
  { inThread := true, parentId := "1375527112521552003", threadId := "7",
    bot := false, content := "quoting: 💬 ** hello" }

/-- A discussion whose body holds a malformed marker (letters, no digits). -/
def malformedDiscussion : GithubDiscussion :=
  { id := "D_9", number := 9, title := "t", body := "<!-- Discord:abc -->", author := "z" }

/-- A discussion whose marker dangles: no fetched thread has id 123. -/
def danglingDiscussion : GithubDiscussion :=
  { id := "D_8", number := 8, title := "t", body := "x <!-- Discord:123 --> y", author := "z" }

/-- An author handle long enough that the header alone overflows the
message budget (the claim quantifies over every author handle). -/
def hugeAuthor : String := String.mk (List.replicate 2000 'a')

/-- The concrete body of the C6 counterexample: a markdown image with a
non-attachment URL, an HTML img tag, and a bare user-attachments URL. -/
def imageBody : String :=
  "see ![pic](https://example.com/a.png) here <img src=\"https://x.io/i.png\" /> and https://github.com/user-attachments/assets/abc-123 done"

/-! ## Basic lemmas about the string scanners -/

theorem begins_iff (n : List Char) : ∀ h : List Char, begins n h = true ↔ ∃ t, h = n ++ t := by
  induction n with
  | nil => intro h; simp [begins]
  | cons p ps ih =>
    intro h
    cases h with
    | nil => simp [begins]
    | cons c cs =>
      simp only [begins, Bool.and_eq_true, beq_iff_eq, ih, List.cons_append]
      constructor
      · rintro ⟨rfl, t, rfl⟩; exact ⟨t, rfl⟩
      · rintro ⟨t, ht⟩
        injection ht with h1 h2
        exact ⟨h1.symm, t, h2⟩

theorem begins_app (n t : List Char) : begins n (n ++ t) = true :=
  (begins_iff n (n ++ t)).2 ⟨t, rfl⟩

theorem containsL_iff (n : List Char) :
    ∀ h : List Char, containsL n h = true ↔ ∃ a b, h = a ++ n ++ b := by
  intro h
  induction h with
  | nil =>
    simp only [containsL]
    constructor
    · intro hn
      have hne : n = [] := List.isEmpty_iff.1 hn
      exact ⟨[], [], by simp [hne]⟩
    · rintro ⟨a, b, hab⟩
      have h0 : (a ++ n) ++ b = [] := hab.symm
      have h1 := List.append_eq_nil.1 h0
      have h2 := List.append_eq_nil.1 h1.1
      simp [h2.2, List.isEmpty_iff]
  | cons c cs ih =>
    simp only [containsL, Bool.or_eq_true, begins_iff, ih]
    constructor
    · rintro (⟨t, ht⟩ | ⟨a, b, rfl⟩)
      · exact ⟨[], t, by simp [ht]⟩
      · exact ⟨c :: a, b, by simp⟩
    · rintro ⟨a, b, hab⟩
      cases a with
      | nil => exact Or.inl ⟨b, by simpa using hab⟩
      | cons a0 as =>
        injection hab with h1 h2
        exact Or.inr ⟨as, b, h2⟩

theorem containsL_parts (a n b : List Char) : containsL n (a ++ n ++ b) = true :=
  (containsL_iff n (a ++ n ++ b)).2 ⟨a, b, rfl⟩

theorem strData_app (s t : String) : (s ++ t).data = s.data ++ t.data := rfl

theorem strLen_app (s t : String) : (s ++ t).length = s.length + t.length := by
  show (s ++ t).data.length = s.data.length + t.data.length
  rw [strData_app, List.length_append]

theorem takeApp (l m : List Char) : (l ++ m).take l.length = l := by
  induction l with
  | nil => simp
  | cons c cs ih => simp [ih]

theorem dropApp (l m : List Char) : (l ++ m).drop l.length = m := by
  induction l with
  | nil => simp
  | cons c cs ih => simp [ih]

theorem takeWhileApp (p : Char → Bool) (l m : List Char) (h : ∀ c ∈ l, p c = true) :
    (l ++ m).takeWhile p = l ++ m.takeWhile p := by
  induction l with
  | nil => simp
  | cons c cs ih =>
    have hc : p c = true := h c (by simp)
    simp [List.takeWhile_cons, hc, ih fun x hx => h x (by simp [hx])]

theorem dropWhileApp (p : Char → Bool) (l m : List Char) (h : ∀ c ∈ l, p c = true) :
    (l ++ m).dropWhile p = m.dropWhile p := by
  induction l with
  | nil => simp
  | cons c cs ih =>
    have hc : p c = true := h c (by simp)
    simp [List.dropWhile_cons, hc, ih fun x hx => h x (by simp [hx])]

/-! ## C1: the catch-up diff and its writes -/

/-- C1: with dry-run disabled, the catch-up step issues no write when the
two fetched lists have equal length; otherwise it issues exactly one write
per surplus message, the surplus being the tail of the longer list from
index len(shorter list) on, pushed to the shorter side in original order. -/
theorem syncMessages_catchup_writes (thread : DiscordThread) (discussion : GithubDiscussion)
    (tm : List ThreadMessage) (dm : List GithubComment) :
    (tm.length = dm.length →
      (syncMessages false thread discussion tm dm).writes = []) ∧
    (tm.length < dm.length →
      (syncMessages false thread discussion tm dm).writes =
        (dm.drop tm.length).map Write.toDiscord ∧
      (syncMessages false thread discussion tm dm).writes.length = dm.length - tm.length) ∧
    (dm.length < tm.length →
      (syncMessages false thread discussion tm dm).writes =
        (tm.drop dm.length).map Write.toGithub ∧
      (syncMessages false thread discussion tm dm).writes.length = tm.length - dm.length) := by
  refine ⟨?_, ?_, ?_⟩
  · intro h; simp [syncMessages, h]
  · intro h
    have hne : ¬ tm.length = dm.length := by omega
    simp [syncMessages, hne, h]
  · intro h
    have hne : ¬ tm.length = dm.length := by omega
    have hnl : ¬ tm.length < dm.length := by omega
    simp [syncMessages, hne, hnl]

/-- Witness for C1: a thread with no extra messages and a discussion with
two comments pushes exactly those two comments to Discord, in order. -/
theorem syncMessages_catchup_writes_witness :
    ([] : List ThreadMessage).length < [sampleComment0, sampleComment1].length ∧
    (syncMessages false sampleThread sampleDiscussion [] [sampleComment0, sampleComment1]).writes =
      [Write.toDiscord sampleComment0, Write.toDiscord sampleComment1] :=
  ⟨by decide,
    ((syncMessages_catchup_writes sampleThread sampleDiscussion []
        [sampleComment0, sampleComment1]).2.1 (by decide)).1.trans (by decide)⟩

/-! ## C5: dry-run behaviour of the catch-up step -/

/-- C5 (amended): in dry-run mode on unequal counts, both reads happen,
no write is issued, and the trace holds a single summary log line noting
the skipped sync (not one line per would-be push). -/
theorem syncMessages_dry_run_trace (thread : DiscordThread) (discussion : GithubDiscussion)
    (tm : List ThreadMessage) (dm : List GithubComment) (h : tm.length ≠ dm.length) :
    (syncMessages true thread discussion tm dm).readDiscord = true ∧
    (syncMessages true thread discussion tm dm).readGithub = true ∧
    (syncMessages true thread discussion tm dm).writes = [] ∧
    (syncMessages true thread discussion tm dm).logs =
      ["Loading messages from thread " ++ thread.id ++ " & discussion " ++ discussion.id,
       (if tm.length < dm.length then "Syncing messages from GitHub to Discord"
        else "Syncing messages from Discord to GitHub"),
       "Dry run enabled, skipping actual sync"] := by
  by_cases hlt : tm.length < dm.length <;> simp [syncMessages, h, hlt]

/-- Counterexample for C5 as stated: in dry-run with two surplus comments,
zero writes are issued but no log line describes any individual would-be
push (no log line mentions either surplus body). -/
theorem syncMessages_dry_run_per_push_cex :
    (syncMessages true sampleThread sampleDiscussion [] [sampleComment0, sampleComment1]).writes
      = [] ∧
    ¬ (∀ c ∈ [sampleComment0, sampleComment1],
        ∃ l ∈ (syncMessages true sampleThread sampleDiscussion []
            [sampleComment0, sampleComment1]).logs,
          strContains l c.body = true) := by
  constructor
  · decide
  · decide

/-- Witness for C5: the amended dry-run trace at a concrete unequal pair. -/
theorem syncMessages_dry_run_trace_witness :
    ([] : List ThreadMessage).length ≠ [sampleComment0].length ∧
    (syncMessages true sampleThread sampleDiscussion [] [sampleComment0]).writes = [] :=
  ⟨by decide,
    (syncMessages_dry_run_trace sampleThread sampleDiscussion [] [sampleComment0]
      (by decide)).2.2.1⟩

/-! ## C4: the threadCreate trigger is dead code -/

/-- C4: the threadCreate handler begins with an unconditional return, so a
thread created in the configured forum channel with an existing seed
message is never routed to syncThreadOnGitHub, although the code that
follows the return (and the handler's own comment) would sync it. -/
theorem threadCreate_handler_dead :
    threadCreateHandler "1375527112521552003" sampleThread (some sampleSeed) =
      TriggerAction.skip ∧
    threadCreateHandlerIntended "1375527112521552003" sampleThread (some sampleSeed) =
      TriggerAction.sync sampleThread.id := by
  constructor
  · rfl
  · decide

/-! ## C10: the messageCreate filter -/

/-- C10: the messageCreate trigger never invokes syncThreadOnGitHub for a
bot-authored message or for one whose content contains the attribution
prefix anywhere (substring containment, not a prefix match). -/
theorem messageCreate_filter_blocks (forumChannelId : String) (m : IncomingMessage)
    (h : m.bot = true ∨ strContains m.content "💬 **" = true) :
    ∀ tid, messageCreateHandler forumChannelId m ≠ TriggerAction.sync tid := by
  intro tid
  unfold messageCreateHandler
  split
  · intro hc; exact TriggerAction.noConfusion hc
  · split
    · intro hc; exact TriggerAction.noConfusion hc
    · split
      · intro hc; exact TriggerAction.noConfusion hc
      · rename_i hcond
        exfalso
        rcases h with h | h <;> simp [h] at hcond

/-- Witness for C10: a native (non-bot) message that merely quotes the
attribution marker mid-text is not synced. -/
theorem messageCreate_filter_blocks_witness :
    (sampleQuote.bot = true ∨ strContains sampleQuote.content "💬 **" = true) ∧
    messageCreateHandler "1375527112521552003" sampleQuote ≠ TriggerAction.sync "7" :=
  ⟨Or.inr (by decide),
    messageCreate_filter_blocks "1375527112521552003" sampleQuote (Or.inr (by decide)) "7"⟩

/-! ## C9: the discussion listing cache is a process-lifetime snapshot -/

theorem applyOps_cache_preserved :
    ∀ (ops : List GOp) (s : GState) (c : List GithubDiscussion),
      s.cache = some c → (applyOps s ops).cache = some c := by
  intro ops
  induction ops with
  | nil => intro s c h; simpa [applyOps] using h
  | cons op rest ih =>
    intro s c h
    have hstep : (applyOp s op).cache = some c := by
      cases op with
      | create i n l t m => simpa [applyOp, createDiscussionSt] using h
      | listCall => simp [applyOp, listGithubDiscussions, h]
    simpa [applyOps, List.foldl_cons] using ih (applyOp s op) c hstep

/-- C9: the first listGithubDiscussions call populates the cache with the
remote snapshot, and every later call — across any interleaving of
discussion creations and further listing calls — returns that same first
snapshot; in particular a created discussion is never added to it. -/
theorem discussion_cache_snapshot (s : GState) (h : s.cache = none) :
    (listGithubDiscussions s).1 = s.remote ∧
    ((listGithubDiscussions s).2).cache = some s.remote ∧
    ∀ ops : List GOp,
      (listGithubDiscussions (applyOps (listGithubDiscussions s).2 ops)).1 = s.remote := by
  refine ⟨by simp [listGithubDiscussions, h], by simp [listGithubDiscussions, h], ?_⟩
  intro ops
  have h1 : ((listGithubDiscussions s).2).cache = some s.remote := by
    simp [listGithubDiscussions, h]
  have h2 := applyOps_cache_preserved ops (listGithubDiscussions s).2 s.remote h1
  revert h2
  generalize applyOps (listGithubDiscussions s).2 ops = s3
  intro h2
  simp [listGithubDiscussions, h2]

/-- Witness for C9: after a creation and another listing call, the listing
still returns the startup snapshot, without the created discussion. -/
theorem discussion_cache_snapshot_witness :
    (GState.mk [sampleDiscussion] none).cache = none ∧
    (listGithubDiscussions
      (applyOps (listGithubDiscussions (GState.mk [sampleDiscussion] none)).2
        [GOp.create "X9" 9 "bot" sampleThread sampleSeed, GOp.listCall])).1 =
      [sampleDiscussion] :=
  ⟨rfl,
    (discussion_cache_snapshot (GState.mk [sampleDiscussion] none) rfl).2.2
      [GOp.create "X9" 9 "bot" sampleThread sampleSeed, GOp.listCall]⟩

/-! ## C8: the entity linkers report unlinked, never fail -/

theorem optNoneBeqSome (x : String) : ((none : Option String) == some x) = false := rfl

/-- C8: both linking resolvers are total functions that return an absent
result when the marker is missing from the body, malformed (the marker
regex does not match), or dangling (no fetched counterpart carries the
referenced id). -/
theorem linkers_unlinked_total :
    (∀ (threads : List DiscordThread) (discussion : GithubDiscussion),
      extractDiscordMarker discussion.body.data = none →
        findDiscussionOnDiscord threads discussion = none) ∧
    (∀ (threads : List DiscordThread) (discussion : GithubDiscussion) (ds : List Char),
      extractDiscordMarker discussion.body.data = some ds →
      (∀ t ∈ threads, t.id ≠ String.mk ds) →
        findDiscussionOnDiscord threads discussion = none) ∧
    (∀ (thread : DiscordThread) (s : GState),
      (∀ d ∈ (listGithubDiscussions s).1,
        strContains d.body (discordMarker thread.id) = false) →
        (findThreadOnGitHub thread s).1 = none) := by
  refine ⟨?_, ?_, ?_⟩
  · intro threads discussion h
    unfold findDiscussionOnDiscord
    rw [h]
    simp only [Option.map_none']
    rw [List.find?_eq_none]
    intro t _
    simp [optNoneBeqSome]
  · intro threads discussion ds h hall
    unfold findDiscussionOnDiscord
    rw [h]
    simp only [Option.map_some']
    rw [List.find?_eq_none]
    intro t ht
    have : (String.mk ds == t.id) = false := by
      rw [beq_eq_false_iff_ne]
      exact fun he => hall t ht (he ▸ rfl)
    simp [this]
  · intro thread s hall
    rcases hp : listGithubDiscussions s with ⟨l, s2⟩
    have hall2 : ∀ d ∈ l, strContains d.body (discordMarker thread.id) = false := by
      intro d hd
      have := hall d
      rw [hp] at this
      exact this hd
    unfold findThreadOnGitHub
    rw [hp]
    simp only
    rw [List.find?_eq_none]
    intro d hd
    simp [hall2 d hd]

/-- Witness for C8: a malformed marker, a dangling marker, and a thread
with no marked discussion all resolve to an absent result. -/
theorem linkers_unlinked_total_witness :
    (extractDiscordMarker malformedDiscussion.body.data = none ∧
      findDiscussionOnDiscord [sampleThread] malformedDiscussion = none) ∧
    (extractDiscordMarker danglingDiscussion.body.data = some ['1', '2', '3'] ∧
      findDiscussionOnDiscord [sampleThread] danglingDiscussion = none) ∧
    (findThreadOnGitHub (DiscordThread.mk "000" "n" "g" "p")
        (GState.mk [sampleDiscussion] none)).1 = none :=
  ⟨⟨by decide, linkers_unlinked_total.1 [sampleThread] malformedDiscussion (by decide)⟩,
    ⟨by decide,
      linkers_unlinked_total.2.1 [sampleThread] danglingDiscussion ['1', '2', '3']
        (by decide) (by decide)⟩,
    linkers_unlinked_total.2.2 (DiscordThread.mk "000" "n" "g" "p")
      (GState.mk [sampleDiscussion] none) (by decide)⟩

/-! ## C3: creation embeds the marker; lookup resolution and the cache -/

theorem containsL_suffix (a n : List Char) : containsL n (a ++ n) = true :=
  (containsL_iff n (a ++ n)).2 ⟨a, [], by simp⟩

theorem strApp_assoc (a b c : String) : (a ++ b) ++ c = a ++ (b ++ c) := by
  cases a; cases b; cases c
  exact congrArg String.mk (List.append_assoc _ _ _)

theorem strContains_suffix (x y : String) : strContains (x ++ y) y = true := by
  rw [strContains, strData_app]
  exact containsL_suffix x.data y.data

theorem find?_app_last {α : Type} (l : List α) (d : α) (p : α → Bool)
    (h : ∀ x ∈ l, p x = false) (hd : p d = true) : (l ++ [d]).find? p = some d := by
  induction l with
  | nil => simp [List.find?, hd]
  | cons x xs ih =>
    have hx : p x = false := h x (by simp)
    simp only [List.cons_append, List.find?, hx]
    exact ih fun y hy => h y (by simp [hy])

/-- C3 (amended): createDiscussion embeds the Discord link marker in the
body of the single creation call; a findThreadOnGitHub lookup resolves to
the created discussion when the listing it consults contains it — which is
the case exactly when the discussion cache was not yet populated before
the creation (the counterexample shows the in-flow case, where the cache
predates the creation and the lookup stays unlinked). -/
theorem createDiscussion_marker_and_fresh_lookup
    (newId : String) (newNumber : Nat) (login : String)
    (thread : DiscordThread) (m : DiscordMessage) (s : GState)
    (hc : s.cache = none)
    (hfree : ∀ d ∈ s.remote, strContains d.body (discordMarker thread.id) = false) :
    strContains (createdDiscussion newId newNumber login thread m).body
      (discordMarker thread.id) = true ∧
    (findThreadOnGitHub thread
      (createDiscussionSt newId newNumber login thread m s).2).1 =
      some (createdDiscussion newId newNumber login thread m) := by
  have hmark : strContains (createdDiscussion newId newNumber login thread m).body
      (discordMarker thread.id) = true := by
    have hb : (createdDiscussion newId newNumber login thread m).body =
        (githubHeader m.author (discordMessageUrl thread.guildId thread.id m.id) ++
          (m.content ++ "\n\n")) ++ discordMarker thread.id := by
      simp [createdDiscussion, createdDiscussionBody, makeGithubComment, strApp_assoc]
    rw [hb]
    exact strContains_suffix _ _
  refine ⟨hmark, ?_⟩
  have hs2 : (createDiscussionSt newId newNumber login thread m s).2 =
      GState.mk (s.remote ++ [createdDiscussion newId newNumber login thread m]) s.cache := by
    simp [createDiscussionSt]
  rw [hs2, hc]
  unfold findThreadOnGitHub listGithubDiscussions
  simp only
  exact find?_app_last s.remote _ _ hfree hmark

/-- Witness for C3: from an unpopulated cache, creating the discussion for
the sample thread makes the lookup resolve to it. -/
theorem createDiscussion_marker_and_fresh_lookup_witness :
    (GState.mk [] none).cache = none ∧
    (findThreadOnGitHub sampleThread
      (createDiscussionSt "NEW" 3 "bot" sampleThread sampleSeed (GState.mk [] none)).2).1 =
      some (createdDiscussion "NEW" 3 "bot" sampleThread sampleSeed) :=
  ⟨rfl,
    (createDiscussion_marker_and_fresh_lookup "NEW" 3 "bot" sampleThread sampleSeed
      (GState.mk [] none) rfl (by simp)).2⟩

/-- Counterexample for C3 as stated: running the thread-side link step
from a state whose cache was populated before the creation (as the program
flow guarantees, since the lookup that precedes the creation populates
it), the creation embeds the marker, yet the subsequent lookup for that
exact thread does not resolve to the new discussion. -/
theorem findThreadOnGitHub_stale_cache_cex :
    strContains (syncThreadOnGitHubLink "NEW" 3 "bot" sampleThread sampleSeed
        (GState.mk [] (some []))).1.body (discordMarker sampleThread.id) = true ∧
    (findThreadOnGitHub sampleThread
      (syncThreadOnGitHubLink "NEW" 3 "bot" sampleThread sampleSeed
        (GState.mk [] (some []))).2).1 = none := by
  constructor
  · decide
  · decide

/-! ## C2: the outbound renderer and its length clamp -/

theorem jsSubstring_len (s : String) (n : Nat) :
    (jsSubstring s n).length = min n s.length := by
  show (s.data.take n).length = min n s.data.length
  simp [List.length_take]

/-- C2 (amended): whenever the attribution header fits in the 1900
character budget (maxContentLength is then non-negative; true of every
real author handle), the renderer always returns a string that starts with
the untruncated header, keeps the processed body verbatim when it fits,
otherwise truncates only the body and appends the continuation marker
(appended exactly when the body is truncated), and the total length never
exceeds Discord's 2000-character ceiling. -/
theorem makeDiscordMessage_clamp (owner repo author body : String) (number : Nat)
    (h : (msgHeader owner repo author number).length ≤ 1900) :
    begins (msgHeader owner repo author number).data
        (makeDiscordMessage owner repo author number body).data = true ∧
    ((processBody body).length ≤ 1900 - (msgHeader owner repo author number).length →
      makeDiscordMessage owner repo author number body =
        msgHeader owner repo author number ++ processBody body) ∧
    (1900 - (msgHeader owner repo author number).length < (processBody body).length →
      makeDiscordMessage owner repo author number body =
        msgHeader owner repo author number ++
          (jsSubstring (processBody body)
            (1900 - (msgHeader owner repo author number).length) ++ continuedMarker) ∧
      (jsSubstring (processBody body)
        (1900 - (msgHeader owner repo author number).length)).length <
        (processBody body).length) ∧
    (makeDiscordMessage owner repo author number body).length ≤ 2000 := by
  have hcm : continuedMarker.length = 15 := rfl
  by_cases hcase :
      (1900 : Int) - ((msgHeader owner repo author number).length : Int) <
        ((processBody body).length : Int)
  · have htn : ((1900 : Int) - ((msgHeader owner repo author number).length : Int)).toNat =
        1900 - (msgHeader owner repo author number).length := by omega
    have hout : makeDiscordMessage owner repo author number body =
        msgHeader owner repo author number ++
          (jsSubstring (processBody body)
            (1900 - (msgHeader owner repo author number).length) ++ continuedMarker) := by
      simp only [makeDiscordMessage, if_pos hcase, htn]
    refine ⟨?_, ?_, ?_, ?_⟩
    · rw [hout, strData_app]; exact begins_app _ _
    · intro hn; exfalso; omega
    · intro hlt
      refine ⟨hout, ?_⟩
      rw [jsSubstring_len]
      omega
    · rw [hout, strLen_app, strLen_app, jsSubstring_len, hcm]
      omega
  · have hout : makeDiscordMessage owner repo author number body =
        msgHeader owner repo author number ++ processBody body := by
      simp only [makeDiscordMessage, if_neg hcase]
    refine ⟨?_, ?_, ?_, ?_⟩
    · rw [hout, strData_app]; exact begins_app _ _
    · intro _; exact hout
    · intro hlt; exfalso; omega
    · rw [hout, strLen_app]; omega

/-- Witness for C2: a realistic author handle and a short body render to
header plus verbatim body. -/
theorem makeDiscordMessage_clamp_witness :
    (msgHeader "" "" "bob" 1).length ≤ 1900 ∧
    makeDiscordMessage "" "" "bob" 1 "hello" =
      msgHeader "" "" "bob" 1 ++ processBody "hello" :=
  ⟨by decide,
    (makeDiscordMessage_clamp "" "" "bob" "hello" 1 (by decide)).2.1 (by decide)⟩

/-- Counterexample for C2 as stated: with a 2000-character author handle
and an empty body, the rendered message is 2079 characters, above the
2000-character per-message ceiling (maxContentLength is negative, the body
is emptied and the continuation marker still appended after a header that
already exceeds the ceiling). -/
theorem makeDiscordMessage_ceiling_cex :
    2000 < (makeDiscordMessage "" "" hugeAuthor 1 "").length := by
  have key : ∀ a : String, a.length = 2000 →
      2000 < (makeDiscordMessage "" "" a 1 "").length := by
    intro a ha
    have hH : (msgHeader "" "" a 1).length = 2064 := by
      have e1 : ("💬 **" : String).length = 4 := rfl
      have e2 : ("** on [GitHub](<https://github.com/" : String).length = 35 := rfl
      have e3 : ("/" : String).length = 1 := rfl
      have e4 : ("/discussions/" : String).length = 13 := rfl
      have e5 : (toString 1 : String).length = 1 := rfl
      have e6 : (">) wrote:\n" : String).length = 10 := rfl
      have e7 : ("" : String).length = 0 := rfl
      simp only [msgHeader, strLen_app]
      rw [e1, e2, e3, e4, e5, e6, e7, ha]
    have hpb : processBody "" = "" := rfl
    have hcm : continuedMarker.length = 15 := rfl
    have hjs : ∀ n : Nat, jsSubstring "" n = "" := by
      intro n
      show String.mk (List.take n []) = ""
      rw [List.take_nil]
    simp only [makeDiscordMessage, hpb, hH]
    rw [if_pos (by norm_num)]
    rw [hjs, strLen_app, strLen_app, hH, hcm]
    norm_num
  exact key hugeAuthor (by
    show (List.replicate 2000 'a').length = 2000
    rw [List.length_replicate])

/-! ## C6: the GitHub → Discord image normalization -/

theorem strEq_of_data (a b : String) (h : a.data = b.data) : a = b := by
  cases a; cases b; exact congrArg String.mk h

theorem rmImagesF_nil (f : Nat) : rmImagesF f [] = [] := by cases f <;> rfl

theorem rmImagesF_bang_bracket (f : Nat) (rest2 : List Char) :
    rmImagesF (f + 1) ('!' :: '[' :: rest2) =
      (match scanAlt rest2 with
       | some (url, rest3) => url ++ rmImagesF f rest3
       | none => '!' :: rmImagesF f ('[' :: rest2)) := rfl

theorem rmImagesF_not_bang (f : Nat) (c : Char) (rest : List Char) (h : c ≠ '!') :
    rmImagesF (f + 1) (c :: rest) = c :: rmImagesF f rest := by
  simp only [rmImagesF]
  rw [if_neg h]

theorem rmImagesF_bang_not_bracket (f : Nat) (r0 : Char) (rest1 : List Char)
    (h : r0 ≠ '[') :
    rmImagesF (f + 1) ('!' :: r0 :: rest1) = '!' :: rmImagesF f (r0 :: rest1) := by
  simp only [rmImagesF, if_true]
  split
  · simp_all
  · rfl

theorem rmImagesF_bang_nil (f : Nat) : rmImagesF (f + 1) ['!'] = '!' :: rmImagesF f [] := rfl

theorem scanAlt_newline (rest : List Char) : scanAlt ('\n' :: rest) = none := rfl

theorem scanAlt_pair (rest2 : List Char) :
    scanAlt (']' :: '(' :: rest2) =
      (match parseUrl rest2 with
       | some (url, r) => some (url, r)
       | none => scanAlt ('(' :: rest2)) := rfl

theorem scanAlt_other (c : Char) (rest : List Char) (h1 : c ≠ '\n') (h2 : c ≠ ']') :
    scanAlt (c :: rest) = scanAlt rest := by
  simp only [scanAlt]
  rw [if_neg h1]
  split
  · simp_all
  · rfl

theorem scanAlt_bracket_not_paren (r0 : Char) (rest1 : List Char) (h : r0 ≠ '(') :
    scanAlt (']' :: r0 :: rest1) = scanAlt (r0 :: rest1) := by
  simp only [scanAlt]
  rw [if_neg (show ¬(']' = '\n') by decide)]
  split
  · simp_all
  · rfl

theorem parseUrlRun_len (pfx rest u r : List Char)
    (h : parseUrlRun pfx rest = some (u, r)) : r.length < rest.length := by
  simp only [parseUrlRun] at h
  by_cases he : (rest.takeWhile urlOk).isEmpty
  · rw [if_pos he] at h; exact absurd h (by simp)
  · rw [if_neg he] at h
    split at h
    · rename_i r2 heq
      simp only [Option.some.injEq, Prod.mk.injEq] at h
      obtain ⟨hu, hr⟩ := h
      subst hr
      have hlen := congrArg List.length heq
      rw [List.length_drop] at hlen
      simp only [List.length_cons] at hlen
      have hle : (rest.takeWhile urlOk).length ≤ rest.length :=
        List.Sublist.length_le (List.takeWhile_sublist _)
      have hne : (rest.takeWhile urlOk).length ≠ 0 := by
        intro h0
        exact he (by simp [List.isEmpty_iff, List.eq_nil_of_length_eq_zero h0])
      omega
    · exact absurd h (by simp)

theorem parseUrl_len (cs u r : List Char) (h : parseUrl cs = some (u, r)) :
    r.length < cs.length := by
  simp only [parseUrl] at h
  by_cases h1 : begins "https://".data cs = true
  · rw [if_pos h1] at h
    have := parseUrlRun_len _ _ _ _ h
    rw [List.length_drop] at this
    omega
  · rw [if_neg h1] at h
    by_cases h2 : begins "http://".data cs = true
    · rw [if_pos h2] at h
      have := parseUrlRun_len _ _ _ _ h
      rw [List.length_drop] at this
      omega
    · rw [if_neg h2] at h
      exact absurd h (by simp)

theorem scanAlt_len : ∀ (cs u r : List Char), scanAlt cs = some (u, r) →
    r.length < cs.length := by
  intro cs
  induction cs with
  | nil => intro u r h; exact absurd h (by simp [scanAlt])
  | cons c rest ih =>
    intro u r h
    by_cases hn : c = '\n'
    · subst hn; rw [scanAlt_newline] at h; exact absurd h (by simp)
    · by_cases hb : c = ']'
      · subst hb
        cases rest with
        | nil =>
          rw [show scanAlt [']'] = none from rfl] at h
          exact absurd h (by simp)
        | cons r0 rest1 =>
          by_cases hp : r0 = '('
          · subst hp
            rw [scanAlt_pair] at h
            split at h
            · rename_i url r2 hpu
              simp only [Option.some.injEq, Prod.mk.injEq] at h
              obtain ⟨hu, hr⟩ := h
              subst hr
              have := parseUrl_len _ _ _ hpu
              simp only [List.length_cons]
              omega
            · have := ih u r h
              simp only [List.length_cons] at this ⊢
              omega
          · rw [scanAlt_bracket_not_paren _ _ hp] at h
            have := ih u r h
            simp only [List.length_cons] at this ⊢
            omega
      · rw [scanAlt_other c rest hn hb] at h
        have := ih u r h
        simp only [List.length_cons]
        omega

theorem rmImagesF_fuel : ∀ (f g : Nat) (cs : List Char),
    cs.length ≤ f → cs.length ≤ g → rmImagesF f cs = rmImagesF g cs := by
  intro f
  induction f with
  | zero =>
    intro g cs hf _
    have h0 : cs = [] := List.eq_nil_of_length_eq_zero (by omega)
    subst h0
    rw [rmImagesF_nil, rmImagesF_nil]
  | succ f ih =>
    intro g cs hf hg
    cases g with
    | zero =>
      have h0 : cs = [] := List.eq_nil_of_length_eq_zero (by omega)
      subst h0
      rw [rmImagesF_nil, rmImagesF_nil]
    | succ g =>
      cases cs with
      | nil => rw [rmImagesF_nil, rmImagesF_nil]
      | cons c rest =>
        simp only [List.length_cons] at hf hg
        by_cases hc : c = '!'
        · subst hc
          cases rest with
          | nil =>
            rw [rmImagesF_bang_nil, rmImagesF_bang_nil, rmImagesF_nil, rmImagesF_nil]
          | cons r0 rest1 =>
            simp only [List.length_cons] at hf hg
            by_cases hr : r0 = '['
            · subst hr
              rw [rmImagesF_bang_bracket, rmImagesF_bang_bracket]
              cases hs : scanAlt rest1 with
              | none =>
                show '!' :: rmImagesF f ('[' :: rest1) = '!' :: rmImagesF g ('[' :: rest1)
                rw [ih g ('[' :: rest1) (by simp only [List.length_cons]; omega)
                  (by simp only [List.length_cons]; omega)]
              | some p =>
                rcases p with ⟨url, rest3⟩
                have hlen := scanAlt_len rest1 url rest3 hs
                show url ++ rmImagesF f rest3 = url ++ rmImagesF g rest3
                rw [ih g rest3 (by omega) (by omega)]
            · rw [rmImagesF_bang_not_bracket f r0 rest1 hr,
                rmImagesF_bang_not_bracket g r0 rest1 hr]
              rw [ih g (r0 :: rest1) (by simp only [List.length_cons]; omega)
                (by simp only [List.length_cons]; omega)]
        · rw [rmImagesF_not_bang f c rest hc, rmImagesF_not_bang g c rest hc]
          rw [ih g rest (by omega) (by omega)]

theorem rmImagesF_pass : ∀ (pre : List Char) (f : Nat) (rest : List Char),
    (∀ c ∈ pre, c ≠ '!') →
    rmImagesF (pre.length + f) (pre ++ rest) = pre ++ rmImagesF f rest := by
  intro pre
  induction pre with
  | nil => intro f rest _; simp
  | cons c cs ih =>
    intro f rest h
    have hc : c ≠ '!' := h c (by simp)
    have hstep : (c :: cs).length + f = (cs.length + f) + 1 := by
      simp only [List.length_cons]; omega
    rw [hstep]
    show rmImagesF ((cs.length + f) + 1) (c :: (cs ++ rest)) = c :: (cs ++ rmImagesF f rest)
    rw [rmImagesF_not_bang _ c _ hc]
    rw [ih f rest fun x hx => h x (by simp [hx])]

theorem rmImagesF_no_bang_id : ∀ (cs : List Char) (f : Nat),
    (∀ c ∈ cs, c ≠ '!') → rmImagesF f cs = cs := by
  intro cs
  induction cs with
  | nil => intro f _; rw [rmImagesF_nil]
  | cons c rest ih =>
    intro f h
    cases f with
    | zero => rfl
    | succ f =>
      rw [rmImagesF_not_bang f c rest (h c (by simp))]
      rw [ih f fun x hx => h x (by simp [hx])]

theorem parseUrl_https (run post : List Char) (hne : run ≠ [])
    (hok : ∀ c ∈ run, urlOk c = true) :
    parseUrl ("https://".data ++ (run ++ ')' :: post)) =
      some ("https://".data ++ run, post) := by
  have hb : begins "https://".data ("https://".data ++ (run ++ ')' :: post)) = true :=
    begins_app _ _
  have h8 : ("https://".data).length = 8 := rfl
  simp only [parseUrl]
  rw [if_pos hb, ← h8, takeApp, dropApp]
  simp only [parseUrlRun]
  rw [takeWhileApp urlOk run (')' :: post) hok]
  have hcl : List.takeWhile urlOk (')' :: post) = [] := by
    rw [List.takeWhile_cons]
    rw [show urlOk ')' = false from rfl]
    simp
  rw [hcl, List.append_nil]
  have hie : run.isEmpty = false := by
    cases run with
    | nil => exact absurd rfl hne
    | cons a b => rfl
  rw [if_neg (by simp [hie]), dropApp]
  rfl

theorem scanAlt_through : ∀ (alt rest u r : List Char),
    (∀ c ∈ alt, c ≠ '\n' ∧ c ≠ ']') →
    parseUrl rest = some (u, r) →
    scanAlt (alt ++ ']' :: '(' :: rest) = some (u, r) := by
  intro alt
  induction alt with
  | nil =>
    intro rest u r _ hp
    show scanAlt (']' :: '(' :: rest) = some (u, r)
    rw [scanAlt_pair, hp]
  | cons a as ih =>
    intro rest u r h hp
    have ha := h a (by simp)
    show scanAlt (a :: (as ++ ']' :: '(' :: rest)) = some (u, r)
    rw [scanAlt_other a _ ha.1 ha.2]
    exact ih rest u r (fun x hx => h x (by simp [hx])) hp

theorem rmImages_rewrite (pre alt run post : List Char)
    (hpre : ∀ c ∈ pre, c ≠ '!')
    (halt : ∀ c ∈ alt, c ≠ '\n' ∧ c ≠ ']')
    (hne : run ≠ []) (hok : ∀ c ∈ run, urlOk c = true) :
    rmImages (pre ++ '!' :: '[' ::
        (alt ++ ']' :: '(' :: ("https://".data ++ (run ++ ')' :: post)))) =
      pre ++ ("https://".data ++ (run ++ rmImages post)) := by
  have hsa : scanAlt (alt ++ ']' :: '(' :: ("https://".data ++ (run ++ ')' :: post))) =
      some ("https://".data ++ run, post) :=
    scanAlt_through alt _ _ _ halt (parseUrl_https run post hne hok)
  have hZ : (pre ++ '!' :: '[' ::
      (alt ++ ']' :: '(' :: ("https://".data ++ (run ++ ')' :: post)))).length =
      pre.length +
        ((alt ++ ']' :: '(' :: ("https://".data ++ (run ++ ')' :: post))).length + 2) := by
    simp only [List.length_append, List.length_cons]
    try omega
  unfold rmImages
  rw [hZ]
  rw [rmImagesF_pass pre _ _ hpre]
  rw [show (alt ++ ']' :: '(' :: ("https://".data ++ (run ++ ')' :: post))).length + 2 =
      ((alt ++ ']' :: '(' :: ("https://".data ++ (run ++ ')' :: post))).length + 1) + 1
    from rfl]
  rw [rmImagesF_bang_bracket]
  rw [hsa]
  show pre ++ (("https://".data ++ run) ++
      rmImagesF ((alt ++ ']' :: '(' :: ("https://".data ++ (run ++ ')' :: post))).length + 1)
        post) = _
  rw [rmImagesF_fuel _ post.length post
    (by simp only [List.length_append, List.length_cons]; omega) (Nat.le_refl _)]
  rw [List.append_assoc]

/-- C6 (amended): the current GitHub → Discord normalization performs only
the markdown-image rewrite: each markdown image is replaced by the bare
url in place (not isolated on its own line), and bodies without the
markdown trigger — in particular HTML img tags and bare user-attachments
URLs — pass through completely unchanged (the legacy
processGitHubAttachments steps are no longer invoked by
makeDiscordMessage). -/
theorem makeDiscordMessage_image_rewrite :
    (∀ pre alt run post : String,
      (∀ c ∈ pre.data, c ≠ '!') →
      (∀ c ∈ alt.data, c ≠ '\n' ∧ c ≠ ']') →
      run.data ≠ [] →
      (∀ c ∈ run.data, urlOk c = true) →
      processBody (pre ++ "![" ++ alt ++ "](https://" ++ run ++ ")" ++ post) =
        pre ++ "https://" ++ run ++ processBody post) ∧
    (∀ body : String, (∀ c ∈ body.data, c ≠ '!') → processBody body = body) := by
  constructor
  · intro pre alt run post hpre halt hne hok
    apply strEq_of_data
    show rmImages ((pre ++ "![" ++ alt ++ "](https://" ++ run ++ ")" ++ post).data) =
      (pre ++ "https://" ++ run ++ processBody post).data
    have key := rmImages_rewrite pre.data alt.data run.data post.data hpre halt hne hok
    simp only [strData_app, List.append_assoc, List.cons_append, List.nil_append] at key ⊢
    rw [key]
    rfl
  · intro body h
    apply strEq_of_data
    show rmImages body.data = body.data
    exact rmImagesF_no_bang_id body.data _ h

set_option maxRecDepth 4000 in
/-- Counterexample for C6 as stated: the markdown image's url is rewritten
in place, not onto its own line; the HTML img tag is not extracted; the
bare user-attachments URL is not isolated by newlines. -/
theorem makeDiscordMessage_image_rewrite_cex :
    processBody imageBody =
      "see https://example.com/a.png here <img src=\"https://x.io/i.png\" /> and https://github.com/user-attachments/assets/abc-123 done" ∧
    strContains (processBody imageBody) "\nhttps://example.com/a.png\n" = false ∧
    strContains (processBody imageBody) "<img" = true ∧
    strContains (processBody imageBody)
      "\nhttps://github.com/user-attachments/assets/abc-123\n" = false := by
  refine ⟨by decide, by decide, by decide, by decide⟩

/-- Witness for C6: the in-place markdown rewrite at concrete parts. -/
theorem makeDiscordMessage_image_rewrite_witness :
    ((∀ c ∈ ("see " : String).data, c ≠ '!') ∧
      (∀ c ∈ ("pic" : String).data, c ≠ '\n' ∧ c ≠ ']') ∧
      ("example.com/a.png" : String).data ≠ [] ∧
      (∀ c ∈ ("example.com/a.png" : String).data, urlOk c = true)) ∧
    processBody ("see " ++ "![" ++ "pic" ++ "](https://" ++ "example.com/a.png" ++ ")" ++ " here") =
      "see " ++ "https://" ++ "example.com/a.png" ++ processBody " here" :=
  ⟨⟨by decide, by decide, by decide, by decide⟩,
    makeDiscordMessage_image_rewrite.1 "see " "pic" "example.com/a.png" " here"
      (by decide) (by decide) (by decide) (by decide)⟩

/-! ## C7: the Discord → GitHub transform never re-wraps a markdown image -/

theorem eqCI_refl (c : Char) : eqCI c c = true := by simp [eqCI]

theorem beginsCI_app (n t : List Char) : beginsCI n (n ++ t) = true := by
  induction n with
  | nil => rfl
  | cons p ps ih => simp [beginsCI, eqCI_refl, ih]

theorem beginsCI_cons_false (p c : Char) (ps cs : List Char) (h : eqCI p c = false) :
    beginsCI (p :: ps) (c :: cs) = false := by
  simp [beginsCI, h]

theorem beginsCI_attLit_false (c : Char) (cs : List Char) (h : eqCI 'h' c = false) :
    beginsCI attLit (c :: cs) = false := by
  rw [show attLit = 'h' :: "ttps://github.com/user-attachments/assets/".data from rfl]
  exact beginsCI_cons_false _ _ _ _ h

theorem beginsCI_imgTag_false (c : Char) (cs : List Char) (h : eqCI '<' c = false) :
    beginsCI imgTagLit (c :: cs) = false := by
  rw [show imgTagLit = '<' :: "img".data from rfl]
  exact beginsCI_cons_false _ _ _ _ h

theorem stageAF_nil (f : Nat) : stageAF f [] = [] := by cases f <;> rfl

theorem stageAF_skip (f : Nat) (c : Char) (rest : List Char)
    (h : beginsCI imgTagLit (c :: rest) = false) :
    stageAF (f + 1) (c :: rest) = c :: stageAF f rest := by
  simp only [stageAF]
  rw [if_neg (by simp [h])]

theorem stageAF_id : ∀ (cs : List Char) (f : Nat),
    (∀ c ∈ cs, eqCI '<' c = false) → stageAF f cs = cs := by
  intro cs
  induction cs with
  | nil => intro f _; exact stageAF_nil f
  | cons c rest ih =>
    intro f h
    cases f with
    | zero => rfl
    | succ f =>
      rw [stageAF_skip f c rest (beginsCI_imgTag_false c rest (h c (by simp)))]
      rw [ih f fun x hx => h x (by simp [hx])]

theorem stageBF_nil (f : Nat) : stageBF f [] = [] := by cases f <;> rfl

theorem stageBF_skip (f : Nat) (c : Char) (rest : List Char)
    (h : beginsCI imgTagLit (c :: rest) = false) :
    stageBF (f + 1) (c :: rest) = c :: stageBF f rest := by
  simp only [stageBF]
  rw [if_neg (by simp [h])]

theorem stageBF_id : ∀ (cs : List Char) (f : Nat),
    (∀ c ∈ cs, eqCI '<' c = false) → stageBF f cs = cs := by
  intro cs
  induction cs with
  | nil => intro f _; exact stageBF_nil f
  | cons c rest ih =>
    intro f h
    cases f with
    | zero => rfl
    | succ f =>
      rw [stageBF_skip f c rest (beginsCI_imgTag_false c rest (h c (by simp)))]
      rw [ih f fun x hx => h x (by simp [hx])]

theorem raF_skip (orig : String) (f : Nat) (c : Char) (rest : List Char)
    (h : beginsCI attLit (c :: rest) = false) :
    replaceAttachmentsF orig (f + 1) (c :: rest) = c :: replaceAttachmentsF orig f rest := by
  simp only [replaceAttachmentsF]
  rw [if_neg (by simp [h])]

theorem raF_id (orig : String) : ∀ (cs : List Char) (f : Nat),
    (∀ c ∈ cs, eqCI 'h' c = false) → replaceAttachmentsF orig f cs = cs := by
  intro cs
  induction cs with
  | nil => intro f _; cases f <;> rfl
  | cons c rest ih =>
    intro f h
    cases f with
    | zero => rfl
    | succ f =>
      rw [raF_skip orig f c rest (beginsCI_attLit_false c rest (h c (by simp)))]
      rw [ih f fun x hx => h x (by simp [hx])]

theorem raF_pass (orig : String) : ∀ (pre : List Char) (f : Nat) (rest : List Char),
    (∀ c ∈ pre, eqCI 'h' c = false) →
    replaceAttachmentsF orig (pre.length + f) (pre ++ rest) =
      pre ++ replaceAttachmentsF orig f rest := by
  intro pre
  induction pre with
  | nil => intro f rest _; simp
  | cons c cs ih =>
    intro f rest h
    have hstep : (c :: cs).length + f = (cs.length + f) + 1 := by
      simp only [List.length_cons]; omega
    rw [hstep]
    show replaceAttachmentsF orig ((cs.length + f) + 1) (c :: (cs ++ rest)) =
      c :: (cs ++ replaceAttachmentsF orig f rest)
    rw [raF_skip orig _ c _ (beginsCI_attLit_false c _ (h c (by simp)))]
    rw [ih f rest fun x hx => h x (by simp [hx])]

theorem raF_match (orig : String) (f : Nat) (tail post : List Char)
    (hne : tail ≠ []) (htc : ∀ c ∈ tail, attChar c = true) :
    replaceAttachmentsF orig (f + 1) (attLit ++ (tail ++ ')' :: post)) =
      (wrapAttachment orig ⟨attLit ++ tail⟩).data ++
        replaceAttachmentsF orig f (')' :: post) := by
  have hcons : attLit ++ (tail ++ ')' :: post) =
      'h' :: ("ttps://github.com/user-attachments/assets/".data ++ (tail ++ ')' :: post)) := rfl
  rw [hcons]
  simp only [replaceAttachmentsF]
  rw [← hcons]
  rw [if_pos (beginsCI_app attLit (tail ++ ')' :: post))]
  rw [dropApp, takeApp]
  rw [takeWhileApp attChar tail (')' :: post) htc]
  rw [show List.takeWhile attChar (')' :: post) = [] from by
    rw [List.takeWhile_cons]
    rw [show attChar ')' = false from rfl]
    simp]
  rw [List.append_nil]
  rw [if_neg (by
    cases tail with
    | nil => exact absurd rfl hne
    | cons a b => simp)]
  rw [dropApp]

theorem wrapAttachment_no_rewrap (orig alt u : String)
    (h : strContains orig ("![" ++ alt ++ "](" ++ u ++ ")") = true) :
    wrapAttachment orig u = u := by
  obtain ⟨a, b, hab⟩ := (containsL_iff _ _).1 h
  have h1 : strContains orig "![" = true := by
    rw [strContains]
    apply (containsL_iff _ _).2
    refine ⟨a, (alt.data ++ ']' :: '(' :: (u.data ++ [')'])) ++ b, ?_⟩
    rw [hab]
    simp [strData_app, List.append_assoc]
  have h2 : strContains orig ("](" ++ u ++ ")") = true := by
    rw [strContains]
    apply (containsL_iff _ _).2
    refine ⟨a ++ ('!' :: '[' :: alt.data), b, ?_⟩
    rw [hab]
    simp [strData_app, List.append_assoc]
  unfold wrapAttachment
  rw [if_pos (by simp [h1, h2])]

theorem raF_family (P tail post : List Char) (orig : String)
    (hP : ∀ c ∈ P, eqCI 'h' c = false)
    (hpost : ∀ c ∈ post, eqCI 'h' c = false)
    (hne : tail ≠ []) (htc : ∀ c ∈ tail, attChar c = true)
    (hwrap : wrapAttachment orig ⟨attLit ++ tail⟩ = ⟨attLit ++ tail⟩) :
    replaceAttachmentsF orig (P ++ (attLit ++ (tail ++ ')' :: post))).length
        (P ++ (attLit ++ (tail ++ ')' :: post))) =
      P ++ (attLit ++ (tail ++ ')' :: post)) := by
  rw [List.length_append]
  rw [raF_pass orig P _ _ hP]
  obtain ⟨k, hk⟩ : ∃ k, (attLit ++ (tail ++ ')' :: post)).length = k + 1 := by
    refine ⟨(attLit ++ (tail ++ ')' :: post)).length - 1, ?_⟩
    have hpos : 0 < attLit.length := by decide
    simp only [List.length_append, List.length_cons]
    omega
  rw [hk, raF_match orig k tail post hne htc, hwrap]
  rw [show (⟨attLit ++ tail⟩ : String).data = attLit ++ tail from rfl]
  rw [raF_id orig (')' :: post) k (List.forall_mem_cons.2 ⟨by decide, hpost⟩)]
  rw [List.append_assoc]

theorem strMkData (l : List Char) : (⟨l⟩ : String).data = l := rfl

theorem convertAttachments_family (pre alt tail post : List Char)
    (hpre : ∀ c ∈ pre, eqCI '<' c = false ∧ eqCI 'h' c = false)
    (halt : ∀ c ∈ alt, eqCI '<' c = false ∧ eqCI 'h' c = false)
    (hpost : ∀ c ∈ post, eqCI '<' c = false ∧ eqCI 'h' c = false)
    (hne : tail ≠ []) (htc : ∀ c ∈ tail, attChar c = true)
    (htl : ∀ c ∈ tail, eqCI '<' c = false) :
    convertAttachmentsToMarkdown
        ⟨pre ++ '!' :: '[' :: (alt ++ ']' :: '(' :: (attLit ++ (tail ++ ')' :: post)))⟩ =
      ⟨pre ++ '!' :: '[' :: (alt ++ ']' :: '(' :: (attLit ++ (tail ++ ')' :: post)))⟩ := by
  have hC_lt : ∀ c ∈ pre ++ '!' :: '[' ::
      (alt ++ ']' :: '(' :: (attLit ++ (tail ++ ')' :: post))), eqCI '<' c = false := by
    refine List.forall_mem_append.2 ⟨fun c hc => (hpre c hc).1, ?_⟩
    refine List.forall_mem_cons.2 ⟨by decide, ?_⟩
    refine List.forall_mem_cons.2 ⟨by decide, ?_⟩
    refine List.forall_mem_append.2 ⟨fun c hc => (halt c hc).1, ?_⟩
    refine List.forall_mem_cons.2 ⟨by decide, ?_⟩
    refine List.forall_mem_cons.2 ⟨by decide, ?_⟩
    refine List.forall_mem_append.2 ⟨by decide, ?_⟩
    refine List.forall_mem_append.2 ⟨htl, ?_⟩
    exact List.forall_mem_cons.2 ⟨by decide, fun c hc => (hpost c hc).1⟩
  have hP_h : ∀ c ∈ pre ++ '!' :: '[' :: (alt ++ [']', '(']), eqCI 'h' c = false := by
    refine List.forall_mem_append.2 ⟨fun c hc => (hpre c hc).2, ?_⟩
    refine List.forall_mem_cons.2 ⟨by decide, ?_⟩
    refine List.forall_mem_cons.2 ⟨by decide, ?_⟩
    refine List.forall_mem_append.2 ⟨fun c hc => (halt c hc).2, ?_⟩
    refine List.forall_mem_cons.2 ⟨by decide, ?_⟩
    refine List.forall_mem_cons.2 ⟨by decide, ?_⟩
    exact fun c hc => absurd hc (List.not_mem_nil c)
  have hPR : pre ++ '!' :: '[' :: (alt ++ ']' :: '(' :: (attLit ++ (tail ++ ')' :: post))) =
      (pre ++ '!' :: '[' :: (alt ++ [']', '('])) ++ (attLit ++ (tail ++ ')' :: post)) := by
    simp [List.append_assoc]
  have hwrap : wrapAttachment
      ⟨(pre ++ '!' :: '[' :: (alt ++ [']', '('])) ++ (attLit ++ (tail ++ ')' :: post))⟩
      ⟨attLit ++ tail⟩ = ⟨attLit ++ tail⟩ := by
    apply wrapAttachment_no_rewrap _ ⟨alt⟩ _
    rw [strContains]
    apply (containsL_iff _ _).2
    refine ⟨pre, post, ?_⟩
    simp [strData_app, strMkData, List.append_assoc]
  simp only [convertAttachmentsToMarkdown, strMkData]
  rw [stageAF_id _ _ hC_lt]
  rw [stageBF_id _ _ hC_lt]
  refine congrArg String.mk ?_
  rw [hPR]
  exact raF_family _ tail post _ hP_h
    (fun c hc => (hpost c hc).2) hne htc hwrap

/-- C7: the Discord → GitHub image transform never wraps a URL that
already occurs inside markdown image syntax a second time.  Part one is
the replacement callback of the legacy convertAttachmentsToMarkdown
attachment pass for every content string; part two runs the whole legacy
transform over a content of the shape pre ![alt](attachment-url) post and
shows it is left entirely unchanged; part three is the current
makeGithubComment, which passes the content through verbatim and so wraps
nothing at all. -/
theorem convertAttachments_no_rewrap :
    (∀ orig alt u : String,
      strContains orig ("![" ++ alt ++ "](" ++ u ++ ")") = true →
        wrapAttachment orig u = u) ∧
    (∀ pre alt tail post : List Char,
      (∀ c ∈ pre, eqCI '<' c = false ∧ eqCI 'h' c = false) →
      (∀ c ∈ alt, eqCI '<' c = false ∧ eqCI 'h' c = false) →
      (∀ c ∈ post, eqCI '<' c = false ∧ eqCI 'h' c = false) →
      tail ≠ [] → (∀ c ∈ tail, attChar c = true) →
      (∀ c ∈ tail, eqCI '<' c = false) →
      convertAttachmentsToMarkdown
          ⟨pre ++ '!' :: '[' :: (alt ++ ']' :: '(' :: (attLit ++ (tail ++ ')' :: post)))⟩ =
        ⟨pre ++ '!' :: '[' :: (alt ++ ']' :: '(' :: (attLit ++ (tail ++ ')' :: post)))⟩) ∧
    (∀ message author url : String,
      makeGithubComment message author url = githubHeader author url ++ message) :=
  ⟨wrapAttachment_no_rewrap,
    fun pre alt tail post h1 h2 h3 h4 h5 h6 =>
      convertAttachments_family pre alt tail post h1 h2 h3 h4 h5 h6,
    fun _ _ _ => rfl⟩

/-- Witness for C7: the guard leaves a markdown-wrapped attachment URL
unwrapped, and the full legacy transform leaves the whole content
unchanged. -/
theorem convertAttachments_no_rewrap_witness :
    (strContains "x ![a](https://github.com/user-attachments/assets/abc) y"
        ("![" ++ "a" ++ "](" ++ "https://github.com/user-attachments/assets/abc" ++ ")") =
        true ∧
      wrapAttachment "x ![a](https://github.com/user-attachments/assets/abc) y"
        "https://github.com/user-attachments/assets/abc" =
        "https://github.com/user-attachments/assets/abc") ∧
    convertAttachmentsToMarkdown
        ⟨"see ".data ++ '!' :: '[' :: ("a".data ++ ']' :: '(' ::
          (attLit ++ ("abc-123".data ++ ')' :: " done".data)))⟩ =
      ⟨"see ".data ++ '!' :: '[' :: ("a".data ++ ']' :: '(' ::
        (attLit ++ ("abc-123".data ++ ')' :: " done".data)))⟩ :=
  ⟨⟨by decide,
      convertAttachments_no_rewrap.1
        "x ![a](https://github.com/user-attachments/assets/abc) y" "a"
        "https://github.com/user-attachments/assets/abc" (by decide)⟩,
    convertAttachments_no_rewrap.2.1 "see ".data "a".data "abc-123".data " done".data
      (by decide) (by decide) (by decide) (by decide) (by decide) (by decide)⟩
